import Mathlib

/-!
Verification of the houston flightcheck worker (flightcheck/index.js) and the
configuration loader (src/lib/config/loader.ts).

The JavaScript/TypeScript sources are shallowly embedded:

* JS objects used as string-keyed maps become association lists
  (`List (String × JsVal)`); `Object.assign(target, source)` becomes `objAssign`,
  which rewrites the target entry in place (keeping its position, as JS does) or
  appends a fresh entry at the end.
* JS numbers carried by hook results are embedded as `Int` (the program only
  counts and sums them).
* A promise is embedded by its settlement outcome, `Except String α`
  (`Except.error` = rejected).  `Promise.all` becomes `promiseAll`, which
  rejects as soon as one member rejects and otherwise fulfills with the list of
  values.
* Fallible synchronous code (`require`, `fs.statSync`, module walking) returns
  `Except`/`Option` values; the ambient filesystem and environment enter as
  explicit parameters.
-/

/-- A JavaScript value as stored by the program in its string-keyed maps:
the loader stores numbers or strings, hook information maps are opaque values. -/
inductive JsVal where
  | num (n : Int)
  | str (s : String)
deriving DecidableEq

/-- First-match lookup in an association list, as JS property access reads
the (unique) property of an object. -/
def getKey {α : Type} : List (String × α) → String → Option α
  | [], _ => none
  | (k', v) :: rest, k => if k' = k then some v else getKey rest k

/-- Write one key, JS-object style: an existing entry keeps its position and
gets the new value, a new key is appended at the end (JS insertion order). -/
def setKey {α : Type} : List (String × α) → String → α → List (String × α)
  | [], k, v => [(k, v)]
  | (k', v') :: rest, k, v =>
      if k' = k then (k, v) :: rest else (k', v') :: setKey rest k v

/-- `Object.assign(base, upd)`: write every entry of `upd` into `base`, in
order, later entries overwriting earlier ones. -/
def objAssign {α : Type} (base upd : List (String × α)) : List (String × α) :=
  upd.foldl (fun acc kv => setKey acc kv.1 kv.2) base

/-- Lookup that takes the LAST matching entry of a raw entry list (the value a
JS object would hold for the key after all entries were written in order). -/
def revFind {α : Type} : List (String × α) → String → Option α
  | [], _ => none
  | kv :: rest, k =>
      match revFind rest k with
      | some v => some v
      | none => if kv.1 = k then some kv.2 else none

/-- The keys of an association list. -/
def keyList {α : Type} (m : List (String × α)) : List String :=
  m.map (fun kv => kv.1)

/-! ## flightcheck data model (flightcheck/index.js) -/

/-- A GitHub issue generated by a hook: `{title, body}`. -/
structure Issue where
  title : String
  body : String
deriving DecidableEq

/-- The object a hook's `run()` fulfills with (see the runHooks doc comment in
flightcheck/index.js): error and warning counts, an information map and an
optional issue. -/
structure PartialResult where
  errors : Int
  warnings : Int
  information : List (String × JsVal)
  issue : Option Issue
deriving DecidableEq

/-- The `data` payload of a `cycle:start` event.  The database documents are
embedded by the fields the program reads: `project._id`, `project.name`,
`release._id` (release may be null) and `cycle._id`. -/
structure Job where
  repo : String
  tag : String
  projectId : String
  projectName : String
  releaseId : Option String
  cycleId : String
deriving DecidableEq

/-- The aggregate object `runHooks` resolves with (lines 44-62). -/
structure Report where
  cycle : String
  project : String
  release : Option String
  errors : Int
  warnings : Int
  information : List (String × JsVal)
  issues : List Issue
deriving DecidableEq

/-- The observable behaviour of one discovered hook module on a given job:
`new Hook(data)` (or the `.run()` call itself) throws synchronously, or the
returned promise resolves, or it rejects. -/
inductive HookBehavior where
  | ctorThrows (e : String)
  | resolves (r : PartialResult)
  | rejects (e : String)

/-- A hook module constructor: instantiated with the job payload, it yields
its behaviour. -/
def Hook : Type := Job → HookBehavior

/-- Whether instantiation throws synchronously. -/
def isCtorThrow : HookBehavior → Bool
  | .ctorThrows _ => true
  | _ => false

/-- Whether the hook's asynchronous `run()` rejects. -/
def isReject : HookBehavior → Bool
  | .rejects _ => true
  | _ => false

/-- The settlement of the promise produced by `new Hook(data).run()` when the
synchronous part did not throw. -/
def runOutcome : HookBehavior → Except String PartialResult
  | .ctorThrows e => .error e
  | .resolves r => .ok r
  | .rejects e => .error e

/-- `hooks.map((Hook) => new Hook(data).run())` (lines 38-40): constructors run
synchronously in order; the first synchronous throw rejects the whole
`runHooks` call, otherwise we obtain every hook's settlement. -/
def instantiate : List Hook → Job → Except String (List (Except String PartialResult))
  | [], _ => .ok []
  | h :: hs, data =>
      match h data with
      | .ctorThrows e => .error e
      | .resolves r => (instantiate hs data).map (fun l => .ok r :: l)
      | .rejects e => (instantiate hs data).map (fun l => .error e :: l)

/-- `Promise.all`: rejects with the reason of a rejecting member, otherwise
fulfills with the list of values. -/
def promiseAll {α : Type} : List (Except String α) → Except String (List α)
  | [] => .ok []
  | .error e :: _ => .error e
  | .ok a :: rest => (promiseAll rest).map (fun l => a :: l)

/-- `.catch((err) => log.error(err))` at line 43: a rejection of
`Promise.all` is RECOVERED (the handler only logs and returns `undefined`),
and the following `.then` iterates `for (const i in pkg)` over `undefined`,
i.e. zero times.  So a rejection yields the empty result list. -/
def settle {α : Type} : Except String (List α) → List α
  | .ok l => l
  | .error _ => []

/-- The accumulator `obj` of the aggregation loop (line 45). -/
structure AggAcc where
  errors : Int
  warnings : Int
  information : List (String × JsVal)
  issues : List Issue

/-- One iteration of `for (const i in pkg)` (lines 47-52). -/
def aggStep (obj : AggAcc) (r : PartialResult) : AggAcc :=
  { errors := r.errors + obj.errors
    warnings := r.warnings + obj.warnings
    information := objAssign obj.information r.information
    issues := obj.issues ++ (match r.issue with | some i => [i] | none => []) }

/-- The aggregation loop of lines 44-55. -/
def aggLoop (pkg : List PartialResult) : AggAcc :=
  pkg.foldl aggStep { errors := 0, warnings := 0, information := [], issues := [] }

/-- Lines 44-62: aggregate the successfully completed results and stamp the
job's correlation identifiers on the report
(`Object.assign({cycle, project, release}, pkg)`). -/
def mkReport (data : Job) (pkg : List PartialResult) : Report :=
  { cycle := data.cycleId
    project := data.projectId
    release := data.releaseId
    errors := (aggLoop pkg).errors
    warnings := (aggLoop pkg).warnings
    information := (aggLoop pkg).information
    issues := (aggLoop pkg).issues }

/-- `runHooks` (lines 33-63).  The `fsHelper.walk` call at line 34 performs
filesystem I/O; its outcome — the discovered hook list in traversal order, or
a rejection — enters the model as the `walkResult` parameter (the tree-level
selection itself is modelled by `discover` below).  A walk rejection or a
synchronous throw while instantiating hooks rejects `runHooks`; a rejection of
a hook's `run()` is recovered by the internal catch (see `settle`). -/
def runHooks (walkResult : Except String (List Hook)) (data : Job) :
    Except String Report :=
  match walkResult with
  | .error e => .error e
  | .ok hooks =>
      match instantiate hooks data with
      | .error e => .error e
      | .ok tests => .ok (mkReport data (settle (promiseAll tests)))

/-- The `cycle:start` handler (lines 71-85): on fulfillment of `runHooks` it
sends the report as a `cycle:finished` event (`some report`); on rejection it
only logs (`none`).  Logging is I/O without observable effect on the bus, so
the published report (or its absence) is the model's observable. -/
def handleCycleStart (walkResult : Except String (List Hook)) (data : Job) :
    Option Report :=
  (runHooks walkResult data).toOption

/-! ## JS string primitives

The JS string operations the two sources use are embedded over the character
list of a `String` (the position-based loops of the built-in `String`
functions do not evaluate inside the kernel; these definitions do, so that
concrete runs of the program can be checked by `decide`/`rfl`). -/

/-- `s.indexOf(c) !== -1` for a single character. -/
def jsContainsChar (s : String) (c : Char) : Bool :=
  s.data.contains c

/-- `s.indexOf(pre) === 0`, i.e. `s` starts with `pre`. -/
def jsStartsWith (s pre : String) : Bool :=
  pre.data.isPrefixOf s.data

/-- `s.toLowerCase()` (the sources only lowercase ASCII names). -/
def jsToLower (s : String) : String :=
  String.mk (s.data.map Char.toLower)

/-- Split off everything before and after the first occurrence of the
(nonempty) pattern `pat`: `some (before, after)`, or `none` when `pat` does
not occur. -/
def breakOn (pat : List Char) : List Char → Option (List Char × List Char)
  | [] => none
  | c :: rest =>
      if pat.isPrefixOf (c :: rest) then some ([], (c :: rest).drop pat.length)
      else
        match breakOn pat rest with
        | some (pre, suf) => some (c :: pre, suf)
        | none => none

/-- Repeatedly split at the pattern; `fuel` bounds the number of pieces (the
callers pass the string length + 1, which always suffices). -/
def splitOnFuel (pat : List Char) : Nat → List Char → List (List Char)
  | 0, l => [l]
  | Nat.succ fuel, l =>
      match breakOn pat l with
      | none => [l]
      | some (pre, suf) => pre :: splitOnFuel pat fuel suf

/-- `s.split(sep)`, JS semantics: with a nonempty separator, the pieces
between occurrences (`"".split(sep) = [""]`); with the empty separator, the
individual characters. -/
def jsSplit (s sep : String) : List String :=
  match sep.data with
  | [] => s.data.map (fun c => String.mk [c])
  | p :: ps => (splitOnFuel (p :: ps) (s.data.length + 1) s.data).map String.mk

/-- `parts.join(sep)`. -/
def jsJoin (sep : String) : List String → String
  | [] => ""
  | [x] => x
  | x :: xs => x ++ sep ++ jsJoin sep xs

/-- `s.replace(pat, rep)` with a string pattern: JS replaces only the FIRST
occurrence (an empty pattern matches at position 0). -/
def jsReplaceFirst (s pat rep : String) : String :=
  match pat.data with
  | [] => rep ++ s
  | p :: ps =>
      match breakOn (p :: ps) s.data with
      | none => s
      | some (pre, suf) => String.mk pre ++ rep ++ String.mk suf

/-- The white-space characters `Number()` strips (the ASCII ones). -/
def jsIsSpace (c : Char) : Bool :=
  c == ' ' || c == '\t' || c == '\n' || c == '\r'

/-- `s.trim()` on ASCII white space. -/
def jsTrim (s : String) : String :=
  String.mk (((s.data.dropWhile jsIsSpace).reverse.dropWhile jsIsSpace).reverse)

/-- The value of a nonempty all-digit sequence. -/
def digitsVal : List Char → Option Nat
  | [] => none
  | l =>
      l.foldl
        (fun acc c =>
          match acc with
          | none => none
          | some n => if 48 ≤ c.toNat && c.toNat ≤ 57 then some (n * 10 + (c.toNat - 48)) else none)
        (some 0)

/-- `Number(s)` on the fragment the configuration loader exercises: an empty
or white-space-only string converts to 0, an optional-sign decimal-digit
string converts to that integer, anything else is NaN (`none`).  (JS also
accepts float and hex literals; no claim about this program depends on
those forms.) -/
def jsToNumber (s : String) : Option Int :=
  match (jsTrim s).data with
  | [] => some 0
  | '-' :: rest => (digitsVal rest).map (fun n => -(n : Int))
  | '+' :: rest => (digitsVal rest).map (fun n => (n : Int))
  | l => (digitsVal l).map (fun n => (n : Int))

/-! ## Hook discovery (lines 34-37) -/

/-- Modelled from the spec: `fsHelper.walk` (lib/helpers/fs, not part of the
given sources) — the filesystem traversal primitive.  Per the spec it "walks a
hook-module tree and selects the subset applicable", returning, in traversal
order, the modules whose tree-relative path satisfies the selection predicate
passed by the caller.  A tree is a list of (relative path, module) pairs in
traversal order. -/
def walk {α : Type} (tree : List (String × α)) (filter : String → Bool) :
    List α :=
  (tree.filter (fun e => filter e.1)).map (fun e => e.2)

/-- The selection predicate passed to `walk` at lines 35-36, translated
literally: `path.indexOf('/') === -1` is "contains no slash", and
`path.indexOf(s) !== 0` is "does not start with `s`". -/
def hookFilter (test : String) (path : String) : Bool :=
  if (jsContainsChar path '/') = false then false
  else !(jsStartsWith path (jsToLower test ++ ".js"))

/-- The discovery performed by `runHooks` (line 34): walk the tree with the
phase predicate. -/
def discover {α : Type} (tree : List (String × α)) (test : String) : List α :=
  walk tree (hookFilter test)

/-- The last path component (the filename after removing the subdirectory
path). -/
def baseName (path : String) : String :=
  (jsSplit path "/").getLastD path

/-- The selection the claim describes (for comparison with the code's
behaviour): the module lies under a subdirectory and its filename, after
removing the subdirectory path, begins with the lowercased phase followed by
".js". -/
def specSelected (phase : String) (path : String) : Bool :=
  jsContainsChar path '/' && jsStartsWith (baseName path) (jsToLower phase ++ ".js")

/-! ## Configuration loader (src/lib/config/loader.ts)

The `Config` class (src/lib/config/index.ts) is not part of the given
sources.  Modelled from the spec: a configuration is "an immutable
configuration snapshot built by merging, in increasing precedence" its
sources; so a `Config` is an association list from dot-delimited paths to
values, `set` writes one path, `merge` writes every entry of the other
snapshot over this one (later writes take precedence), `get('.')` reads the
whole snapshot (the identity here) and `freeze` makes it immutable (the
identity on the value). -/

/-- A configuration snapshot: dot-delimited paths to values. -/
abbrev Config : Type := List (String × JsVal)

/-- The prefix required for environment variables to be used
(`environmentPrefix` in loader.ts). -/
def environmentPrefix : String := "HOUSTON"

/-- `stringToDot` (loader.ts lines 42-49): lowercase, split on underscores,
drop the first segment (`splice(1)` returns the removed tail), join with dots
and replace the first occurrence of the substring "env" with "environment"
(JS `replace` with a string pattern only replaces the first occurrence). -/
def stringToDot (str : String) : String :=
  jsReplaceFirst (jsJoin "." ((jsSplit (jsToLower str) "_").drop 1)) "env" "environment"

/-- The transform as the claim describes it: remove the prefix segment,
lowercase, join the remaining underscore-delimited segments with dots, and
rename a literal SEGMENT "env" to "environment". -/
def stringToDotSegments (str : String) : String :=
  jsJoin "."
    (((jsSplit (jsToLower str) "_").drop 1).map
      (fun seg => if seg = "env" then "environment" else seg))

/-- The dot-joined name before the replacement step (for stating what
`stringToDot` does). -/
def dotJoined (str : String) : String :=
  jsJoin "." ((jsSplit (jsToLower str) "_").drop 1)

/-- The body of the `Object.keys(process.env).forEach` loop of
`getEnvironmentConfig` (loader.ts lines 60-72): a variable with the
recognized prefix is stored under its dot path, as a number when
`Number(value)` is not NaN and as the raw string otherwise. -/
def envStep (cfg : Config) (kv : String × String) : Config :=
  if jsStartsWith kv.1 environmentPrefix then
    match jsToNumber kv.2 with
    | some n => setKey cfg (stringToDot kv.1) (JsVal.num n)
    | none => setKey cfg (stringToDot kv.1) (JsVal.str kv.2)
  else cfg

/-- loader.ts lines 75-77: `NODE_ENV`, when set, overrides the
`environment` path. -/
def nodeEnvCase (env : List (String × String)) (base : Config) : Config :=
  match getKey env "NODE_ENV" with
  | some v => setKey base "environment" (JsVal.str v)
  | none => base

/-- loader.ts lines 79-81: `NODE_DEBUG`, when set, raises the console log
level. -/
def nodeDebugCase (env : List (String × String)) (base : Config) : Config :=
  match getKey env "NODE_DEBUG" with
  | some _ => setKey base "log.console" (JsVal.str "debug")
  | none => base

/-- `getEnvironmentConfig` (loader.ts lines 57-84).  `process.env` enters as
the list of set variables in `Object.keys` order; after the prefix loop,
`NODE_ENV` and `NODE_DEBUG` are special-cased.  `freeze` is the identity on
the snapshot value. -/
def getEnvironmentConfig (env : List (String × String)) : Config :=
  nodeDebugCase env (nodeEnvCase env (env.foldl envStep []))

/-- The well-known configuration file locations (loader.ts lines 28-31):
`path.resolve(process.cwd(), 'config.js')` and `/etc/houston/config.js`. -/
def configurationPaths (cwd : String) : List String :=
  [cwd ++ "/config.js", "/etc/houston/config.js"]

/-- The loop of loader.ts lines 158-165: try each well-known path; a
`statSync` failure (no entry) is swallowed and the next path is tried; the
first path holding a requireable file wins.  The filesystem enters as
`fsFiles`, mapping a path to the config object a `require` of it yields
(`none` when there is no file at the path). -/
def firstExistingFile (fsFiles : String → Option Config) :
    List String → Option Config
  | [] => none
  | q :: rest =>
      match fsFiles q with
      | some f => some f
      | none => firstExistingFile fsFiles rest

/-- `getFileConfig` (loader.ts lines 145-171).  With an explicit path the
file is `require`d (absolute paths as-is, relative ones resolved against the
working directory) and a missing file is a thrown error; with no path the
well-known locations are probed and a miss everywhere leaves the file object
`{}`.  The result is the fresh config merged with the file object, frozen. -/
def getFileConfig (fsFiles : String → Option Config) (cwd : String)
    (p : Option String) : Except String Config :=
  match p with
  | some pathStr =>
      let abs := if jsStartsWith pathStr "/" then pathStr else cwd ++ "/" ++ pathStr
      match fsFiles abs with
      | some file => .ok (objAssign [] file)
      | none => .error ("Cannot find module " ++ abs)
  | none =>
      .ok (objAssign [] ((firstExistingFile fsFiles (configurationPaths cwd)).getD []))

/-- `getConfig` (loader.ts lines 182-194): merge, in order, the program
config, the file config and the environment config into a fresh snapshot
(so the environment has the highest precedence), and freeze it.
`getProgramConfig` reads package.json and the git metadata of the running
checkout; its snapshot enters as the `program` parameter. -/
def getConfig (fsFiles : String → Option Config) (cwd : String)
    (p : Option String) (program : Config) (env : List (String × String)) :
    Except String Config :=
  match getFileConfig fsFiles cwd p with
  | .error e => .error e
  | .ok file =>
      .ok (objAssign (objAssign (objAssign [] program) file) (getEnvironmentConfig env))

/-! ## Association-list lemmas -/

theorem getKey_setKey_self {α : Type} (m : List (String × α)) (k : String) (v : α) :
    getKey (setKey m k v) k = some v := by
  induction m with
  | nil => simp [setKey, getKey]
  | cons kv rest ih =>
      obtain ⟨k', v'⟩ := kv
      by_cases h : k' = k
      · simp [setKey, getKey, h]
      · simp [setKey, getKey, h, ih]

theorem getKey_setKey_ne {α : Type} (m : List (String × α)) (k k' : String) (v : α)
    (h : k' ≠ k) : getKey (setKey m k v) k' = getKey m k' := by
  induction m with
  | nil => simp [setKey, getKey, Ne.symm h]
  | cons kv rest ih =>
      obtain ⟨a, b⟩ := kv
      by_cases hak : a = k
      · subst hak
        simp [setKey, getKey, Ne.symm h]
      · by_cases hak' : a = k'
        · simp [setKey, getKey, hak, hak', h]
        · simp [setKey, getKey, hak, hak', ih]

theorem getKey_objAssign {α : Type} (u : List (String × α)) :
    ∀ (base : List (String × α)) (k : String),
      getKey (objAssign base u) k =
        match revFind u k with
        | some v => some v
        | none => getKey base k := by
  induction u with
  | nil => intro base k; simp [objAssign, revFind]
  | cons kv rest ih =>
      intro base k
      have h1 : objAssign base (kv :: rest) = objAssign (setKey base kv.1 kv.2) rest := by
        simp [objAssign]
      rw [h1, ih]
      by_cases hk : kv.1 = k
      · cases hrf : revFind rest k with
        | some v => simp [revFind, hrf]
        | none => simp [revFind, hrf, hk, getKey_setKey_self]
      · cases hrf : revFind rest k with
        | some v => simp [revFind, hrf]
        | none =>
            simp [revFind, hrf, hk,
              getKey_setKey_ne _ _ _ _ (fun hh => hk hh.symm)]

theorem getKey_eq_none {α : Type} (m : List (String × α)) (k : String)
    (h : k ∉ keyList m) : getKey m k = none := by
  induction m with
  | nil => rfl
  | cons kv rest ih =>
      obtain ⟨a, b⟩ := kv
      simp only [keyList, List.map_cons, List.mem_cons, not_or] at h
      obtain ⟨h1, h2⟩ := h
      simp [getKey, Ne.symm h1, ih (by simpa [keyList] using h2)]

theorem revFind_eq_none {α : Type} (m : List (String × α)) (k : String)
    (h : k ∉ keyList m) : revFind m k = none := by
  induction m with
  | nil => rfl
  | cons kv rest ih =>
      obtain ⟨a, b⟩ := kv
      simp only [keyList, List.map_cons, List.mem_cons, not_or] at h
      obtain ⟨h1, h2⟩ := h
      simp [revFind, Ne.symm h1, ih (by simpa [keyList] using h2)]

theorem revFind_eq_getKey {α : Type} (m : List (String × α))
    (h : (keyList m).Nodup) : ∀ k, revFind m k = getKey m k := by
  induction m with
  | nil => intro k; rfl
  | cons kv rest ih =>
      obtain ⟨a, b⟩ := kv
      simp only [keyList, List.map_cons, List.nodup_cons] at h
      obtain ⟨hnotin, hnd⟩ := h
      intro k
      have ihk := ih (by simpa [keyList] using hnd) k
      by_cases hak : a = k
      · subst hak
        have hg : getKey rest a = none :=
          getKey_eq_none rest a (by simpa [keyList] using hnotin)
        simp [revFind, getKey, ihk, hg]
      · cases hg : getKey rest k with
        | some v => simp [revFind, getKey, ihk, hg, hak]
        | none => simp [revFind, getKey, ihk, hg, hak]

theorem keyList_setKey {α : Type} (m : List (String × α)) (k : String) (v : α) :
    keyList (setKey m k v) =
      if k ∈ keyList m then keyList m else keyList m ++ [k] := by
  induction m with
  | nil => simp [setKey, keyList]
  | cons kv rest ih =>
      obtain ⟨a, b⟩ := kv
      by_cases hak : a = k
      · subst hak
        simp [setKey, keyList]
      · have ihs := ih
        simp only [keyList] at ihs ⊢
        simp only [setKey, if_neg hak, List.map_cons]
        rw [ihs]
        by_cases hk : k ∈ List.map (fun kv => kv.1) rest
        · simp [hk, List.mem_cons, Ne.symm hak]
        · simp [hk, List.mem_cons, Ne.symm hak]

theorem nodup_setKey {α : Type} (m : List (String × α)) (k : String) (v : α)
    (h : (keyList m).Nodup) : (keyList (setKey m k v)).Nodup := by
  rw [keyList_setKey]
  by_cases hk : k ∈ keyList m
  · simpa [hk] using h
  · simp only [hk, if_false]
    simp [List.nodup_append, h, hk]

theorem nodup_envStep (cfg : Config) (kv : String × String)
    (h : (keyList cfg).Nodup) : (keyList (envStep cfg kv)).Nodup := by
  unfold envStep
  split
  · split
    · exact nodup_setKey _ _ _ h
    · exact nodup_setKey _ _ _ h
  · exact h

theorem nodup_foldl_envStep (l : List (String × String)) :
    ∀ acc : Config, (keyList acc).Nodup → (keyList (l.foldl envStep acc)).Nodup := by
  induction l with
  | nil => intro acc h; simpa using h
  | cons kv rest ih =>
      intro acc h
      rw [List.foldl_cons]
      exact ih _ (nodup_envStep acc kv h)

theorem nodup_envConfig (env : List (String × String)) :
    (keyList (getEnvironmentConfig env)).Nodup := by
  unfold getEnvironmentConfig nodeDebugCase nodeEnvCase
  have hbase : (keyList (env.foldl envStep [])).Nodup :=
    nodup_foldl_envStep env [] (by simp [keyList])
  split
  · split
    · exact nodup_setKey _ _ _ (nodup_setKey _ _ _ hbase)
    · exact nodup_setKey _ _ _ hbase
  · split
    · exact nodup_setKey _ _ _ hbase
    · exact hbase

/-! ## Aggregation lemmas -/

theorem aggLoop_counts (pkg : List PartialResult) :
    ∀ acc : AggAcc,
      (pkg.foldl aggStep acc).errors = (pkg.map (fun r => r.errors)).sum + acc.errors ∧
      (pkg.foldl aggStep acc).warnings = (pkg.map (fun r => r.warnings)).sum + acc.warnings := by
  induction pkg with
  | nil => intro acc; simp
  | cons r rest ih =>
      intro acc
      rw [List.foldl_cons]
      obtain ⟨h1, h2⟩ := ih (aggStep acc r)
      constructor
      · rw [h1]; simp [aggStep]; omega
      · rw [h2]; simp [aggStep]; omega

theorem aggLoop_info (pkg : List PartialResult) :
    ∀ acc : AggAcc,
      (pkg.foldl aggStep acc).information
        = pkg.foldl (fun m r => objAssign m r.information) acc.information := by
  induction pkg with
  | nil => intro acc; rfl
  | cons r rest ih =>
      intro acc
      rw [List.foldl_cons, List.foldl_cons, ih]
      rfl

/-- The value the last-write-wins merge of the information maps holds for a
key: the entry of the latest result that writes the key (inside one result,
its latest entry). -/
def lastWrite (pkg : List PartialResult) (k : String) : Option JsVal :=
  match pkg with
  | [] => none
  | r :: rest =>
      match lastWrite rest k with
      | some v => some v
      | none => revFind r.information k

theorem getKey_foldl_assign (pkg : List PartialResult) :
    ∀ (m : List (String × JsVal)) (k : String),
      getKey (pkg.foldl (fun m r => objAssign m r.information) m) k
        = match lastWrite pkg k with
          | some v => some v
          | none => getKey m k := by
  induction pkg with
  | nil => intro m k; rfl
  | cons r rest ih =>
      intro m k
      rw [List.foldl_cons, ih, getKey_objAssign]
      cases hrw : lastWrite rest k with
      | some v => simp [lastWrite, hrw]
      | none =>
          cases hrf : revFind r.information k with
          | some v => simp [lastWrite, hrw, hrf]
          | none => simp [lastWrite, hrw, hrf]

/-! ## Promise lemmas -/

/-- Whether a settlement is a rejection. -/
def isErrB {α : Type} : Except String α → Bool
  | .error _ => true
  | .ok _ => false

theorem instantiate_no_throw (hooks : List Hook) (data : Job)
    (h : ∀ hk ∈ hooks, isCtorThrow (hk data) = false) :
    instantiate hooks data
      = Except.ok (hooks.map (fun hk => runOutcome (hk data))) := by
  induction hooks with
  | nil => rfl
  | cons hk hs ih =>
      have hhd := h hk (List.mem_cons_self hk hs)
      have htl : ∀ x ∈ hs, isCtorThrow (x data) = false :=
        fun x hx => h x (List.mem_cons_of_mem hk hx)
      cases hb : hk data with
      | ctorThrows e => rw [hb] at hhd; simp [isCtorThrow] at hhd
      | resolves r => simp [instantiate, hb, ih htl, runOutcome, Except.map]
      | rejects e => simp [instantiate, hb, ih htl, runOutcome, Except.map]

theorem instantiate_throw (hooks : List Hook) (data : Job)
    (h : ∃ hk ∈ hooks, isCtorThrow (hk data) = true) :
    ∃ e, instantiate hooks data = Except.error e := by
  induction hooks with
  | nil => simp at h
  | cons hk hs ih =>
      cases hb : hk data with
      | ctorThrows e => exact ⟨e, by simp [instantiate, hb]⟩
      | resolves r =>
          obtain ⟨x, hx, hcx⟩ := h
          rcases List.mem_cons.mp hx with rfl | hx'
          · rw [hb] at hcx; simp [isCtorThrow] at hcx
          · obtain ⟨e, he⟩ := ih ⟨x, hx', hcx⟩
            exact ⟨e, by simp [instantiate, hb, he, Except.map]⟩
      | rejects e' =>
          obtain ⟨x, hx, hcx⟩ := h
          rcases List.mem_cons.mp hx with rfl | hx'
          · rw [hb] at hcx; simp [isCtorThrow] at hcx
          · obtain ⟨e, he⟩ := ih ⟨x, hx', hcx⟩
            exact ⟨e, by simp [instantiate, hb, he, Except.map]⟩

theorem promiseAll_error {α : Type} (l : List (Except String α))
    (h : ∃ x ∈ l, isErrB x = true) : ∃ e, promiseAll l = Except.error e := by
  induction l with
  | nil => simp at h
  | cons x rest ih =>
      cases x with
      | error e => exact ⟨e, rfl⟩
      | ok a =>
          obtain ⟨y, hy, hey⟩ := h
          rcases List.mem_cons.mp hy with rfl | hy'
          · simp [isErrB] at hey
          · obtain ⟨e, he⟩ := ih ⟨y, hy', hey⟩
            exact ⟨e, by simp [promiseAll, he, Except.map]⟩

/-- The shared core of the collapse behaviour: no constructor throws and some
hook's `run()` rejects, so `Promise.all` rejects, the internal catch recovers,
and `runHooks` fulfills with the aggregate of no results at all. -/
theorem runHooks_reject_core (data : Job) (hooks : List Hook)
    (hctor : ∀ hk ∈ hooks, isCtorThrow (hk data) = false)
    (hrej : ∃ hk ∈ hooks, isReject (hk data) = true) :
    runHooks (Except.ok hooks) data = Except.ok (mkReport data []) := by
  have h1 := instantiate_no_throw hooks data hctor
  have h2 : ∃ x ∈ hooks.map (fun hk => runOutcome (hk data)), isErrB x = true := by
    obtain ⟨hk, hm, hr⟩ := hrej
    refine ⟨runOutcome (hk data), List.mem_map_of_mem _ hm, ?_⟩
    cases hb : hk data with
    | rejects e => simp [runOutcome, isErrB]
    | resolves r => rw [hb] at hr; simp [isReject] at hr
    | ctorThrows e => rw [hb] at hr; simp [isReject] at hr
  obtain ⟨e, he⟩ := promiseAll_error _ h2
  simp [runHooks, h1, he, settle]

/-! ## Promise timing (for the fan-in barrier claim)

A promise here is additionally stamped with the abstract moment at which it
settles.  Per the ECMAScript semantics of `Promise.all`, the combined promise
fulfills once the LAST member fulfills, but rejects already when the FIRST
rejection occurs, without waiting for the remaining members. -/

/-- A hook promise with its settlement time. -/
structure TimedOutcome where
  time : Nat
  outcome : Except String PartialResult

/-- The settle times of the rejecting members. -/
def rejectionTimes (ps : List TimedOutcome) : List Nat :=
  (ps.filter (fun p => isErrB p.outcome)).map (fun p => p.time)

/-- The moment `Promise.all(tests)` (line 42) settles — and, the rest of the
`runHooks` chain being synchronous continuations, the moment `runHooks`
produces its result: the latest fulfillment when every member fulfills, the
earliest rejection otherwise. -/
def allSettleTime (ps : List TimedOutcome) : Nat :=
  match rejectionTimes ps with
  | [] => (ps.map (fun p => p.time)).foldl Nat.max 0
  | t :: ts => ts.foldl Nat.min t

theorem le_foldl_max (l : List Nat) : ∀ a : Nat, a ≤ l.foldl Nat.max a := by
  induction l with
  | nil => intro a; exact Nat.le_refl a
  | cons b rest ih =>
      intro a
      rw [List.foldl_cons]
      exact Nat.le_trans (Nat.le_max_left a b) (ih (Nat.max a b))

theorem mem_le_foldl_max (l : List Nat) :
    ∀ (a x : Nat), x ∈ l → x ≤ l.foldl Nat.max a := by
  induction l with
  | nil => intro a x hx; simp at hx
  | cons b rest ih =>
      intro a x hx
      rw [List.foldl_cons]
      rcases List.mem_cons.mp hx with rfl | hx'
      · exact Nat.le_trans (Nat.le_max_right a x) (le_foldl_max rest (Nat.max a x))
      · exact ih (Nat.max a b) x hx'

theorem foldl_min_le (l : List Nat) : ∀ a : Nat, l.foldl Nat.min a ≤ a := by
  induction l with
  | nil => intro a; exact Nat.le_refl a
  | cons b rest ih =>
      intro a
      rw [List.foldl_cons]
      exact Nat.le_trans (ih (Nat.min a b)) (Nat.min_le_left a b)

theorem foldl_min_le_mem (l : List Nat) :
    ∀ (a x : Nat), x ∈ l → l.foldl Nat.min a ≤ x := by
  induction l with
  | nil => intro a x hx; simp at hx
  | cons b rest ih =>
      intro a x hx
      rw [List.foldl_cons]
      rcases List.mem_cons.mp hx with rfl | hx'
      · exact Nat.le_trans (foldl_min_le rest (Nat.min a x)) (Nat.min_le_right a x)
      · exact ih (Nat.min a b) x hx'

/-! ## Concrete fixtures (for counterexamples and witnesses) -/

/-- A concrete job, shaped like the end-to-end scenario of the spec. -/
def job0 : Job :=
  { repo := "git@github.com:elementary/houston.git"
    tag := "master"
    projectId := "p1"
    projectName := "App"
    releaseId := none
    cycleId := "c1" }

/-- A hook result with nothing in it. -/
def prEmpty : PartialResult :=
  { errors := 0, warnings := 0, information := [], issue := none }

/-- A hook result with some counts and information. -/
def prOk : PartialResult :=
  { errors := 1, warnings := 2, information := [("lintOk", JsVal.num 0)], issue := none }

/-- A hook whose `run()` always rejects. -/
def rejHook : Hook := fun _ => HookBehavior.rejects "hook run rejected"

/-- A hook whose constructor always throws. -/
def ctorHook : Hook := fun _ => HookBehavior.ctorThrows "hook constructor threw"

/-- A filesystem holding one file: a config at the cwd-local well-known
path. -/
def fsFixture : String → Option Config :=
  fun q => if q = "/app/config.js" then some [("server.url", JsVal.str "filehost")] else none

/-! ## The claims -/

/-- C1 (code bug): the claim says discovery returns exactly the modules under
a subdirectory whose path-stripped filename begins with the lowercased phase
followed by ".js".  The code's predicate `path.indexOf(test + '.js') !== 0`
instead ADMITS every module under a subdirectory whose full path does not
begin with the phase filename — here a module of a different phase,
`GitHub/build.js`, is returned for phase "pre" although the claim excludes
it.  (The function's own doc comment says `test` selects "the type of test to
be ran"; the intended check was `indexOf(...) !== -1`.) -/
theorem discover_includes_module_of_other_phase :
    discover [("GitHub/build.js", 0)] "pre" = [0] ∧
    specSelected "pre" "GitHub/build.js" = false :=
  ⟨by decide, by decide⟩

/-- C2 (counterexample): a hook rejection IS a failure during the run, yet
the handler still publishes a `cycle:finished` report (the empty aggregate),
contradicting the claim that no report is published on any failure. -/
theorem hook_rejection_still_publishes :
    handleCycleStart (Except.ok [rejHook]) job0 = some (mkReport job0 []) := rfl

/-- C2 (amended): a discovery failure, or an exception outside hook
execution (a hook constructor throwing), suppresses the `cycle:finished`
report — only a log remains; but a hook run() rejection does NOT suppress it:
a report carrying the empty aggregate is still published. -/
theorem cycle_start_publication_behavior :
    (∀ (data : Job) (e : String), handleCycleStart (Except.error e) data = none) ∧
    (∀ (data : Job) (hooks : List Hook),
        (∃ hk ∈ hooks, isCtorThrow (hk data) = true) →
        handleCycleStart (Except.ok hooks) data = none) ∧
    (∀ (data : Job) (hooks : List Hook),
        (∀ hk ∈ hooks, isCtorThrow (hk data) = false) →
        (∃ hk ∈ hooks, isReject (hk data) = true) →
        handleCycleStart (Except.ok hooks) data = some (mkReport data [])) := by
  refine ⟨fun data e => rfl, ?_, ?_⟩
  · intro data hooks h
    obtain ⟨e, he⟩ := instantiate_throw hooks data h
    simp [handleCycleStart, runHooks, he, Except.toOption]
  · intro data hooks h1 h2
    simp [handleCycleStart, runHooks_reject_core data hooks h1 h2, Except.toOption]

/-- C2 witness: the amended behaviour at concrete inputs. -/
theorem cycle_start_publication_behavior_witness :
    handleCycleStart (Except.error "walk failed") job0 = none ∧
    handleCycleStart (Except.ok [ctorHook]) job0 = none ∧
    handleCycleStart (Except.ok [rejHook]) job0 = some (mkReport job0 []) := by
  refine ⟨cycle_start_publication_behavior.1 job0 "walk failed",
    cycle_start_publication_behavior.2.1 job0 [ctorHook]
      ⟨ctorHook, List.mem_singleton.mpr rfl, rfl⟩,
    cycle_start_publication_behavior.2.2 job0 [rejHook] ?_
      ⟨rejHook, List.mem_singleton.mpr rfl, rfl⟩⟩
  intro hk hm
  rw [List.mem_singleton] at hm
  subst hm
  rfl

/-- C3: when no constructor throws and at least one hook's `run()` rejects,
`runHooks` fulfills with the aggregate of the empty sequence of partial
results — zero errors and warnings, empty information and issues — stamped
with the job's correlation identifiers. -/
theorem hook_rejection_collapses_aggregate (data : Job) (hooks : List Hook)
    (hctor : ∀ hk ∈ hooks, isCtorThrow (hk data) = false)
    (hrej : ∃ hk ∈ hooks, isReject (hk data) = true) :
    runHooks (Except.ok hooks) data = Except.ok (mkReport data []) ∧
    mkReport data [] =
      { cycle := data.cycleId, project := data.projectId, release := data.releaseId,
        errors := 0, warnings := 0, information := [], issues := [] } :=
  ⟨runHooks_reject_core data hooks hctor hrej, rfl⟩

/-- C3 witness: one rejecting hook, concrete job. -/
theorem hook_rejection_collapses_aggregate_witness :
    runHooks (Except.ok [rejHook]) job0 = Except.ok (mkReport job0 []) := by
  refine (hook_rejection_collapses_aggregate job0 [rejHook] ?_
    ⟨rejHook, List.mem_singleton.mpr rfl, rfl⟩).1
  intro hk hm
  rw [List.mem_singleton] at hm
  subst hm
  rfl

/-- C4 (counterexample): with a hook fulfilling at time 5 and one rejecting
at time 1, the runner's result is available at time 1 — before all hooks have
settled — so in the some-rejected case there is no fan-in barrier. -/
theorem promise_all_returns_before_all_settled :
    allSettleTime [⟨5, Except.ok prEmpty⟩, ⟨1, Except.error "boom"⟩] = 1 ∧
    (([⟨5, Except.ok prEmpty⟩, ⟨1, Except.error "boom"⟩] : List TimedOutcome).map
        (fun p => p.time)).foldl Nat.max 0 = 5 :=
  ⟨rfl, rfl⟩

/-- C4 (amended): the runner waits for all hooks to settle only in the
all-fulfilled case (its result is then available no earlier than every
hook's settle time); when some hook rejects, the result is available no later
than the rejection — `Promise.all` short-circuits instead of waiting. -/
theorem allSettleTime_barrier_only_when_fulfilled :
    (∀ ps : List TimedOutcome, rejectionTimes ps = [] →
        ∀ p ∈ ps, p.time ≤ allSettleTime ps) ∧
    (∀ (ps : List TimedOutcome) (p : TimedOutcome), p ∈ ps →
        isErrB p.outcome = true → allSettleTime ps ≤ p.time) := by
  constructor
  · intro ps hre p hp
    simp only [allSettleTime, hre]
    exact mem_le_foldl_max _ 0 p.time (List.mem_map_of_mem _ hp)
  · intro ps p hp herr
    have hmem : p.time ∈ rejectionTimes ps :=
      List.mem_map_of_mem _ (List.mem_filter.mpr ⟨hp, herr⟩)
    cases hre : rejectionTimes ps with
    | nil => rw [hre] at hmem; simp at hmem
    | cons t ts =>
        rw [hre] at hmem
        simp only [allSettleTime, hre]
        rcases List.mem_cons.mp hmem with heq | hmem'
        · rw [heq]; exact foldl_min_le ts t
        · exact foldl_min_le_mem ts t p.time hmem'

/-- C4 witness: the barrier in the all-fulfilled case and the short-circuit
in the rejected case, at concrete inputs. -/
theorem allSettleTime_barrier_only_when_fulfilled_witness :
    (rejectionTimes [⟨2, Except.ok prEmpty⟩] = [] ∧
      (2 : Nat) ≤ allSettleTime [⟨2, Except.ok prEmpty⟩]) ∧
    (isErrB (Except.error "boom" : Except String PartialResult) = true ∧
      allSettleTime [⟨5, Except.ok prEmpty⟩, ⟨1, Except.error "boom"⟩] ≤ 1) := by
  refine ⟨⟨rfl, ?_⟩, ⟨rfl, ?_⟩⟩
  · exact allSettleTime_barrier_only_when_fulfilled.1 [⟨2, Except.ok prEmpty⟩] rfl
      ⟨2, Except.ok prEmpty⟩ (List.mem_singleton.mpr rfl)
  · exact allSettleTime_barrier_only_when_fulfilled.2
      [⟨5, Except.ok prEmpty⟩, ⟨1, Except.error "boom"⟩]
      ⟨1, Except.error "boom"⟩
      (List.mem_cons_of_mem _ (List.mem_singleton.mpr rfl)) rfl

/-- C5: for a non-empty sequence of completed results, the report's error
and warning counts are the sums of the results' counts. -/
theorem aggregate_sums_errors_and_warnings (data : Job) (pkg : List PartialResult)
    (h : pkg ≠ []) :
    (mkReport data pkg).errors = (pkg.map (fun r => r.errors)).sum ∧
    (mkReport data pkg).warnings = (pkg.map (fun r => r.warnings)).sum := by
  obtain ⟨h1, h2⟩ :=
    aggLoop_counts pkg { errors := 0, warnings := 0, information := [], issues := [] }
  constructor
  · have hr : (mkReport data pkg).errors
        = (pkg.foldl aggStep { errors := 0, warnings := 0, information := [], issues := [] }).errors := rfl
    rw [hr, h1]; simp
  · have hr : (mkReport data pkg).warnings
        = (pkg.foldl aggStep { errors := 0, warnings := 0, information := [], issues := [] }).warnings := rfl
    rw [hr, h2]; simp

/-- C5 witness: one concrete result. -/
theorem aggregate_sums_errors_and_warnings_witness :
    (([prOk] : List PartialResult) ≠ []) ∧
    (mkReport job0 [prOk]).errors = ([prOk].map (fun r => r.errors)).sum ∧
    (mkReport job0 [prOk]).warnings = ([prOk].map (fun r => r.warnings)).sum := by
  have h : ([prOk] : List PartialResult) ≠ [] := by simp
  obtain ⟨h1, h2⟩ := aggregate_sums_errors_and_warnings job0 [prOk] h
  exact ⟨h, h1, h2⟩

/-- C6: the report's information map is the last-write-wins merge of the
results' information maps in sequence order: looking up any key yields the
entry of the latest result that writes it. -/
theorem aggregate_information_last_write_wins (data : Job)
    (pkg : List PartialResult) (k : String) :
    getKey (mkReport data pkg).information k = lastWrite pkg k := by
  have h0 : (mkReport data pkg).information
      = pkg.foldl (fun m r => objAssign m r.information) [] := by
    exact aggLoop_info pkg { errors := 0, warnings := 0, information := [], issues := [] }
  rw [h0, getKey_foldl_assign]
  cases hlw : lastWrite pkg k <;> simp [hlw, getKey]

/-- C7 (counterexample): the claim says only a literal segment "env" is
renamed.  The code replaces the first occurrence of the SUBSTRING "env"
anywhere in the dot-joined name: `HOUSTON_DENVER` comes out as
"denvironmenter" where the claim's per-segment transform yields "denver". -/
theorem stringToDot_rewrites_inside_segment :
    stringToDot "HOUSTON_DENVER" = "denvironmenter" ∧
    stringToDotSegments "HOUSTON_DENVER" = "denver" :=
  ⟨by decide, by decide⟩

/-- C7 (amended): the stored path is obtained by removing the prefix segment,
lowercasing, joining the remaining underscore-delimited segments with dots,
and replacing the FIRST OCCURRENCE OF THE SUBSTRING "env" (not a literal
segment) with "environment"; the claim's examples still hold:
HOUSTON_LOG_LEVEL maps to log.level and HOUSTON_ENV_NAME to
environment.name. -/
theorem stringToDot_replaces_first_env_occurrence :
    (∀ s : String, stringToDot s = jsReplaceFirst (dotJoined s) "env" "environment") ∧
    stringToDot "HOUSTON_LOG_LEVEL" = "log.level" ∧
    stringToDot "HOUSTON_ENV_NAME" = "environment.name" :=
  ⟨fun _ => rfl, by decide, by decide⟩

/-- C8: a key set by both the file config and a recognized environment
variable resolves, in the merged snapshot, to the environment variable's
value — the environment config is merged last in `getConfig`. -/
theorem env_var_overrides_file_config (fsFiles : String → Option Config)
    (cwd : String) (p : Option String) (program fileC : Config)
    (env : List (String × String)) (k : String) (v2 : JsVal)
    (hfile : getFileConfig fsFiles cwd p = Except.ok fileC)
    (hset : (getKey fileC k).isSome = true)
    (henv : getKey (getEnvironmentConfig env) k = some v2) :
    ∃ C : Config, getConfig fsFiles cwd p program env = Except.ok C ∧
      getKey C k = some v2 := by
  refine ⟨objAssign (objAssign (objAssign [] program) fileC) (getEnvironmentConfig env),
    ?_, ?_⟩
  · simp [getConfig, hfile]
  · rw [getKey_objAssign, revFind_eq_getKey _ (nodup_envConfig env) k, henv]

/-- C8 witness: `server.url` set by the config file and by
`HOUSTON_SERVER_URL`; the merged snapshot holds the environment value. -/
theorem env_var_overrides_file_config_witness :
    getFileConfig fsFixture "/app" none
      = Except.ok [("server.url", JsVal.str "filehost")] ∧
    (getKey [("server.url", JsVal.str "filehost")] "server.url").isSome = true ∧
    getKey (getEnvironmentConfig [("HOUSTON_SERVER_URL", "envhost")]) "server.url"
      = some (JsVal.str "envhost") ∧
    (∃ C : Config,
      getConfig fsFixture "/app" none [] [("HOUSTON_SERVER_URL", "envhost")]
        = Except.ok C ∧
      getKey C "server.url" = some (JsVal.str "envhost")) := by
  have hf : getFileConfig fsFixture "/app" none
      = Except.ok [("server.url", JsVal.str "filehost")] := rfl
  have he : getKey (getEnvironmentConfig [("HOUSTON_SERVER_URL", "envhost")]) "server.url"
      = some (JsVal.str "envhost") := by decide
  exact ⟨hf, rfl, he,
    env_var_overrides_file_config fsFixture "/app" none [] _ _ "server.url"
      (JsVal.str "envhost") hf rfl he⟩

/-- C9: a recognized environment variable with the empty string as value is
stored as the NUMBER 0, because `Number('')` is 0 and passes the `isNaN`
check. -/
theorem empty_env_value_stored_as_number_zero (k : String)
    (h : jsStartsWith k environmentPrefix = true) :
    getKey (getEnvironmentConfig [(k, "")]) (stringToDot k) = some (JsVal.num 0) := by
  have hne : k ≠ "NODE_ENV" := by
    intro he; rw [he] at h; exact absurd h (by decide)
  have hnd : k ≠ "NODE_DEBUG" := by
    intro he; rw [he] at h; exact absurd h (by decide)
  have hzero : jsToNumber "" = some 0 := by decide
  have hbase : ([(k, "")] : List (String × String)).foldl envStep []
      = [(stringToDot k, JsVal.num 0)] := by
    simp [envStep, h, hzero, setKey]
  simp [getEnvironmentConfig, nodeDebugCase, nodeEnvCase, hbase, getKey, hne, hnd]

/-- C9 witness: `HOUSTON_FLAG=` stores `flag` as the number 0. -/
theorem empty_env_value_stored_as_number_zero_witness :
    jsStartsWith "HOUSTON_FLAG" environmentPrefix = true ∧
    getKey (getEnvironmentConfig [("HOUSTON_FLAG", "")]) (stringToDot "HOUSTON_FLAG")
      = some (JsVal.num 0) :=
  ⟨by decide, empty_env_value_stored_as_number_zero "HOUSTON_FLAG" (by decide)⟩

/-- C10: with no explicit path and no file at either well-known location,
`getFileConfig` returns the empty frozen configuration instead of
throwing. -/
theorem getFileConfig_empty_when_no_files (fsFiles : String → Option Config)
    (cwd : String)
    (h1 : fsFiles (cwd ++ "/config.js") = none)
    (h2 : fsFiles "/etc/houston/config.js" = none) :
    getFileConfig fsFiles cwd none = Except.ok [] := by
  simp [getFileConfig, configurationPaths, firstExistingFile, h1, h2, objAssign]

/-- C10 witness: the empty filesystem. -/
theorem getFileConfig_empty_when_no_files_witness :
    ((fun _ => none : String → Option Config) ("/srv" ++ "/config.js") = none) ∧
    ((fun _ => none : String → Option Config) "/etc/houston/config.js" = none) ∧
    getFileConfig (fun _ => none) "/srv" none = Except.ok [] :=
  ⟨rfl, rfl, getFileConfig_empty_when_no_files (fun _ => none) "/srv" rfl rfl⟩

